import Mathlib

/-!
# Verification of the pomodoro-tui group-session subsystem

A shallow embedding, in Lean 4, of the group/jam synchronization subsystem of
the `pomodoro-tui` repository:

* `src/group/session-code.ts` — session-code generation and validation,
* `src/group/client.ts`       — the relay client and its reconnect backoff,
* `src/group/config.ts`       — the group configuration constants,
* `src/group/manager.ts`      — the client-side session manager,
* `src/pomodoro.ts`           — the timer state machine (as a collaborator),
* `party/server.ts`           — the per-room relay server.

Pure functions of the source become Lean functions; stateful classes become
records with explicit state passing; the event-driven parts (server message
handling, client reconnect, manager callbacks) become step functions over an
explicit event alphabet.  Machine numbers are modelled as `Nat`/`Int` (the
quantities involved — timestamps, attempt counters, seconds remaining — are
small integers in the source; no overflow is reachable).
-/

/-! ## Session codes (`src/group/session-code.ts`) -/

/-- `const CONSONANTS = 'BCDFGHJKLMNPQRSTVWXYZ'` — 21 consonants, no vowels. -/
def CONSONANTS : List Char :=
  ['B', 'C', 'D', 'F', 'G', 'H', 'J', 'K', 'L', 'M', 'N',
   'P', 'Q', 'R', 'S', 'T', 'V', 'W', 'X', 'Y', 'Z']

/-- `const DIGITS = '23456789'` — no 0/1, to avoid confusion with O/I. -/
def DIGITS : List Char := ['2', '3', '4', '5', '6', '7', '8', '9']

/-- The uppercase of one character as JavaScript
`String.prototype.toUpperCase` produces it: the Unicode full case mapping,
under which some characters uppercase to MORE than one character.  The
mapping is modeled exactly on ASCII (the familiar a-z to A-Z map, identity
on the rest) and on the Latin expanding/archaic mappings listed below (the
Latin entries of Unicode SpecialCasing.txt, plus the simple mapping of the
long s); other non-ASCII characters are left unchanged, and every
all-strings theorem below restricts itself to ASCII inputs, where the model
is exact.  (JS string length counts UTF-16 units; on the Basic Multilingual
Plane — where every character of this development lives — that equals the
character count used here.) -/
def jsCharUpper (c : Char) : List Char :=
  if c = 'ß' then ['S', 'S']
  else if c = 'ŉ' then ['ʼ', 'N']
  else if c = 'ſ' then ['S']
  else if c = 'ﬀ' then ['F', 'F']
  else if c = 'ﬁ' then ['F', 'I']
  else if c = 'ﬂ' then ['F', 'L']
  else if c = 'ﬃ' then ['F', 'F', 'I']
  else if c = 'ﬄ' then ['F', 'F', 'L']
  else if c = 'ﬅ' then ['S', 'T']
  else if c = 'ﬆ' then ['S', 'T']
  else [c.toUpper]

/-- Model of JavaScript `String.prototype.toUpperCase`: the concatenation
of the full-case uppercase of each character. -/
def jsToUpperCase (s : String) : String := String.mk (s.data.flatMap jsCharUpper)

/-- `generateSessionCode()`: three consonants followed by three digits.  The
six random draws `Math.floor(Math.random() * alphabet.length)` are modelled
as explicit `Fin`-valued inputs (each draw lands in `[0, length)`). -/
def generateSessionCode (a b c : Fin 21) (d e f : Fin 8) : String :=
  String.mk [CONSONANTS.get a, CONSONANTS.get b, CONSONANTS.get c,
             DIGITS.get d, DIGITS.get e, DIGITS.get f]

/-- `validateSessionCode(code)`: requires a non-empty, 6-character input
(the length of the input BEFORE uppercasing) whose uppercasing has three
consonants then three digits at `slice(0,3)` / `slice(3,6)`. -/
def validateSessionCode (code : String) : Bool :=
  if code == "" || code.length ≠ 6 then false
  else
    let upperCode := jsToUpperCase code
    let letters := upperCode.data.take 3
    let digitPart := (upperCode.data.drop 3).take 3
    letters.all (fun ch => CONSONANTS.contains ch) &&
      digitPart.all (fun ch => DIGITS.contains ch)

/-- `normalizeSessionCode(code)`: `code.toUpperCase().trim()`. -/
def normalizeSessionCode (code : String) : String := (jsToUpperCase code).trim

/-- The code shape in the words of the spec, of the string AFTER
uppercasing: exactly 6 characters, the first 3 of the consonant alphabet,
the last 3 of the digit alphabet. -/
def sessionCodeShapeSpec (s : String) : Bool :=
  (jsToUpperCase s).length == 6 &&
    ((jsToUpperCase s).data.take 3).all (fun ch => CONSONANTS.contains ch) &&
    (((jsToUpperCase s).data.drop 3).take 3).all (fun ch => DIGITS.contains ch)

theorem consonant_jsCharUpper : ∀ ch ∈ CONSONANTS, jsCharUpper ch = [ch] := by
  decide

theorem digit_jsCharUpper : ∀ ch ∈ DIGITS, jsCharUpper ch = [ch] := by
  decide

theorem jsCharUpper_ascii {c : Char} (hc : c.toNat < 128) :
    jsCharUpper c = [c.toUpper] := by
  have h1 : c ≠ 'ß' := by rintro rfl; revert hc; decide
  have h2 : c ≠ 'ŉ' := by rintro rfl; revert hc; decide
  have h3 : c ≠ 'ſ' := by rintro rfl; revert hc; decide
  have h4 : c ≠ 'ﬀ' := by rintro rfl; revert hc; decide
  have h5 : c ≠ 'ﬁ' := by rintro rfl; revert hc; decide
  have h6 : c ≠ 'ﬂ' := by rintro rfl; revert hc; decide
  have h7 : c ≠ 'ﬃ' := by rintro rfl; revert hc; decide
  have h8 : c ≠ 'ﬄ' := by rintro rfl; revert hc; decide
  have h9 : c ≠ 'ﬅ' := by rintro rfl; revert hc; decide
  have h10 : c ≠ 'ﬆ' := by rintro rfl; revert hc; decide
  simp [jsCharUpper, h1, h2, h3, h4, h5, h6, h7, h8, h9, h10]

theorem flatMap_jsCharUpper_ascii {l : List Char}
    (h : ∀ c ∈ l, c.toNat < 128) :
    l.flatMap jsCharUpper = l.map Char.toUpper := by
  induction l with
  | nil => rfl
  | cons x xs ih =>
    rw [List.flatMap_cons, List.map_cons,
      jsCharUpper_ascii (h x (List.mem_cons_self _ _)),
      ih (fun c hc => h c (List.mem_cons_of_mem _ hc))]
    rfl

theorem validate_eq_shape_ascii (s : String)
    (h : ∀ ch ∈ s.data, ch.toNat < 128) :
    validateSessionCode s = sessionCodeShapeSpec s := by
  have hdata : (jsToUpperCase s).data = s.data.map Char.toUpper :=
    flatMap_jsCharUpper_ascii h
  have hlen : (jsToUpperCase s).length = s.length := by
    show (jsToUpperCase s).data.length = s.data.length
    rw [hdata, List.length_map]
  unfold validateSessionCode sessionCodeShapeSpec
  by_cases h6 : s.length = 6
  · have hne : (s == "") = false := by
      rcases s with ⟨l⟩
      rcases l with _ | _
      · simp [String.length] at h6
      · rfl
    have h6u : ((jsToUpperCase s).length == 6) = true := by
      rw [hlen]
      simp [h6]
    simp [hne, h6, h6u, Bool.and_assoc]
  · have h6a : (s.length == 6) = false := by simpa using h6
    have h6u : ((jsToUpperCase s).length == 6) = false := by
      rw [hlen]
      simpa using h6
    simp [h6, h6a, h6u]

theorem generate_valid (a b c : Fin 21) (d e f : Fin 8) :
    validateSessionCode (generateSessionCode a b c d e f) = true := by
  have ha : jsCharUpper (CONSONANTS.get a) = [CONSONANTS.get a] :=
    consonant_jsCharUpper _ (List.getElem_mem _)
  have hb : jsCharUpper (CONSONANTS.get b) = [CONSONANTS.get b] :=
    consonant_jsCharUpper _ (List.getElem_mem _)
  have hc : jsCharUpper (CONSONANTS.get c) = [CONSONANTS.get c] :=
    consonant_jsCharUpper _ (List.getElem_mem _)
  have hd : jsCharUpper (DIGITS.get d) = [DIGITS.get d] :=
    digit_jsCharUpper _ (List.getElem_mem _)
  have he : jsCharUpper (DIGITS.get e) = [DIGITS.get e] :=
    digit_jsCharUpper _ (List.getElem_mem _)
  have hf : jsCharUpper (DIGITS.get f) = [DIGITS.get f] :=
    digit_jsCharUpper _ (List.getElem_mem _)
  simp only [List.get_eq_getElem] at ha hb hc hd he hf
  unfold validateSessionCode generateSessionCode jsToUpperCase
  simp [String.length, String.ext_iff, List.flatMap_cons, ha, hb, hc, hd, he,
    hf]

/-- C8 counterexample: the program accepts "ﬂK2345" — a 6-character string
whose JS uppercase "FLK2345" has 7 characters and so does NOT have the
claimed 6-character 3-consonant/3-digit shape.  `validateSessionCode`
checks the length of the input before uppercasing and the alphabets on
slices of the uppercased string, so a full-case expansion slips through:
the claim's conjunct "validateSessionCode returns false for any string
that, after uppercasing, does not have this shape" is false of the code. -/
theorem c8_full_casing_counterexample :
    validateSessionCode "ﬂK2345" = true ∧
    sessionCodeShapeSpec "ﬂK2345" = false := by
  decide

/-- C8 (amended): every output of `generateSessionCode` (for every choice
of the six random draws) passes `validateSessionCode`, and every generated
code is exactly 6 characters, the first 3 from the 21-consonant alphabet
and the last 3 from the digit alphabet; and for every ASCII string — where
JS uppercasing is the plain character-wise map — `validateSessionCode`
returns true exactly when the uppercased string has this shape.  For
non-ASCII input the equivalence can fail, because JS applies the full
Unicode case mapping, which can lengthen the string (see
the counterexample at "ﬂK2345"). -/
theorem c8_generate_validate :
    (∀ (a b c : Fin 21) (d e f : Fin 8),
        validateSessionCode (generateSessionCode a b c d e f) = true ∧
        (generateSessionCode a b c d e f).length = 6 ∧
        (generateSessionCode a b c d e f).data.take 3
          = [CONSONANTS.get a, CONSONANTS.get b, CONSONANTS.get c] ∧
        (generateSessionCode a b c d e f).data.drop 3
          = [DIGITS.get d, DIGITS.get e, DIGITS.get f]) ∧
    (∀ s : String, (∀ ch ∈ s.data, ch.toNat < 128) →
        validateSessionCode s = sessionCodeShapeSpec s) := by
  constructor
  · intro a b c d e f
    exact ⟨generate_valid a b c d e f, rfl, rfl, rfl⟩
  · exact validate_eq_shape_ascii

/-! ## The timer state machine (`src/pomodoro.ts`) -/

/-- `SessionType = "work" | "shortBreak" | "longBreak"` (`src/types.ts`). -/
inductive SessionType
  | work
  | shortBreak
  | longBreak
deriving DecidableEq, Repr

/-- `PomodoroConfig` (`src/types.ts`); durations are in minutes. -/
structure PomodoroConfig where
  workDuration : Nat
  shortBreakDuration : Nat
  longBreakDuration : Nat
  pomodorosBeforeLongBreak : Nat
deriving DecidableEq, Repr

/-- `DEFAULT_CONFIG` (`src/types.ts`). -/
def DEFAULT_CONFIG : PomodoroConfig :=
  { workDuration := 25, shortBreakDuration := 5, longBreakDuration := 15,
    pomodorosBeforeLongBreak := 4 }

/-- `PomodoroState` (`src/types.ts`); `timeRemaining` is in seconds.  It is an
`Int` because `tick()` decrements before testing `<= 0`, so the value can
transiently pass through arbitrary integers fed in via `setState`. -/
structure PomodoroState where
  currentSession : SessionType
  timeRemaining : Int
  isRunning : Bool
  completedPomodoros : Nat
deriving DecidableEq, Repr

/-- The mutable fields of `class Pomodoro`.  `timerActive` models
`this.timer ≠ null` (the 1-second `setInterval` driving `tick`); `jamMode`
models the `jamMode`/group-mode flag which, when set, marks the instance as a
group participant whose state is driven by the host. -/
structure Pomodoro where
  config : PomodoroConfig
  state : PomodoroState
  timerActive : Bool
  jamMode : Bool
deriving DecidableEq, Repr

/-- The `Pomodoro` constructor. -/
def Pomodoro.init (config : PomodoroConfig) : Pomodoro :=
  { config := config,
    state := { currentSession := .work,
               timeRemaining := (config.workDuration * 60 : Nat),
               isRunning := false,
               completedPomodoros := 0 },
    timerActive := false,
    jamMode := false }

/-- `getSessionDuration(session)` — minutes for the given session kind. -/
def Pomodoro.getSessionDuration (p : Pomodoro) : SessionType → Nat
  | .work => p.config.workDuration
  | .shortBreak => p.config.shortBreakDuration
  | .longBreak => p.config.longBreakDuration

/-- `setJamMode(enabled)`.  (The manager in `src/group/manager.ts` invokes
this flag-setter under the name `setGroupMode`.) -/
def Pomodoro.setJamMode (p : Pomodoro) (enabled : Bool) : Pomodoro :=
  { p with jamMode := enabled }

/-- The name `src/group/manager.ts` uses for the mode flag setter. -/
def Pomodoro.setGroupMode (p : Pomodoro) (enabled : Bool) : Pomodoro :=
  p.setJamMode enabled

/-- `setState(newState)`: overwrite the state wholesale; in jam mode also
clear any running interval (participants never run their own countdown). -/
def Pomodoro.setState (p : Pomodoro) (newState : PomodoroState) : Pomodoro :=
  let p' := { p with state := newState }
  if p'.jamMode then { p' with timerActive := false } else p'

/-- `start()`: no-op while running; otherwise set `isRunning` and install the
tick interval. -/
def Pomodoro.start (p : Pomodoro) : Pomodoro :=
  if p.state.isRunning then p
  else { p with state := { p.state with isRunning := true }, timerActive := true }

/-- `pause()`: no-op while stopped; otherwise clear `isRunning` and the
interval. -/
def Pomodoro.pause (p : Pomodoro) : Pomodoro :=
  if !p.state.isRunning then p
  else { p with state := { p.state with isRunning := false }, timerActive := false }

/-- `completeSession()`: advance the cycle — a completed work session
increments `completedPomodoros` and selects `longBreak` every
`pomodorosBeforeLongBreak`-th pomodoro (`shortBreak` otherwise); a completed
break returns to `work`; the clock is reloaded with the new session's
duration in seconds, `isRunning` is cleared and the interval stopped. -/
def Pomodoro.completeSession (p : Pomodoro) : Pomodoro :=
  let afterSwitch :=
    if p.state.currentSession = .work then
      let n := p.state.completedPomodoros + 1
      let next : SessionType :=
        if n % p.config.pomodorosBeforeLongBreak = 0 then .longBreak
        else .shortBreak
      { p with state := { p.state with completedPomodoros := n, currentSession := next } }
    else
      { p with state := { p.state with currentSession := .work } }
  { afterSwitch with
    state := { afterSwitch.state with
                 timeRemaining :=
                   (afterSwitch.getSessionDuration afterSwitch.state.currentSession * 60 : Nat),
                 isRunning := false },
    timerActive := false }

/-- `tick()`: decrement the clock; on reaching `<= 0`, complete the session. -/
def Pomodoro.tick (p : Pomodoro) : Pomodoro :=
  let p' := { p with state := { p.state with timeRemaining := p.state.timeRemaining - 1 } }
  if p'.state.timeRemaining ≤ 0 then p'.completeSession else p'

/-- `skip()`: stop the interval, clear `isRunning`, then complete the
session. -/
def Pomodoro.skip (p : Pomodoro) : Pomodoro :=
  Pomodoro.completeSession
    { p with timerActive := false, state := { p.state with isRunning := false } }

/-- `reset()`: pause, then reload the clock for the current session. -/
def Pomodoro.reset (p : Pomodoro) : Pomodoro :=
  let p' := p.pause
  { p' with state := { p'.state with
      timeRemaining := (p'.getSessionDuration p'.state.currentSession * 60 : Nat) } }

/-- C10: whenever a session completes (`tick` reaching `<= 0`, or `skip`):
a completed work session bumps `completedPomodoros` by exactly 1 and goes to
`longBreak` iff the new count is divisible by `pomodorosBeforeLongBreak`
(`shortBreak` otherwise); a completed break goes to `work`; in all cases
`timeRemaining` is reloaded with the new session's configured duration in
seconds and `isRunning` becomes `false`. -/
theorem c10_session_completion (p : Pomodoro) :
    (p.state.currentSession = .work →
       p.completeSession.state.completedPomodoros = p.state.completedPomodoros + 1 ∧
       p.completeSession.state.currentSession =
         (if (p.state.completedPomodoros + 1) % p.config.pomodorosBeforeLongBreak = 0
          then SessionType.longBreak else SessionType.shortBreak)) ∧
    (p.state.currentSession ≠ .work →
       p.completeSession.state.currentSession = .work ∧
       p.completeSession.state.completedPomodoros = p.state.completedPomodoros) ∧
    p.completeSession.state.timeRemaining =
      ((p.getSessionDuration p.completeSession.state.currentSession * 60 : Nat) : Int) ∧
    p.completeSession.state.isRunning = false ∧
    (p.state.timeRemaining ≤ 1 →
       p.tick = Pomodoro.completeSession
         { p with state := { p.state with timeRemaining := p.state.timeRemaining - 1 } }) ∧
    p.skip = Pomodoro.completeSession
      { p with timerActive := false, state := { p.state with isRunning := false } } := by
  refine ⟨?_, ?_, ?_, ?_, ?_, rfl⟩
  · intro hw
    unfold Pomodoro.completeSession
    by_cases hdiv :
        (p.state.completedPomodoros + 1) % p.config.pomodorosBeforeLongBreak = 0 <;>
      simp [hw, hdiv]
  · intro hw
    unfold Pomodoro.completeSession
    simp [hw]
  · unfold Pomodoro.completeSession Pomodoro.getSessionDuration
    by_cases hw : p.state.currentSession = .work
    · by_cases hdiv :
          (p.state.completedPomodoros + 1) % p.config.pomodorosBeforeLongBreak = 0 <;>
        simp [hw, hdiv]
    · simp [hw]
  · unfold Pomodoro.completeSession
    by_cases hw : p.state.currentSession = .work <;> simp [hw]
  · intro hle
    unfold Pomodoro.tick
    have : p.state.timeRemaining - 1 ≤ 0 := by omega
    simp [this]

/-! ## The relay server (`party/server.ts`) -/

/-- `interface Participant` of the server (identical to `GroupParticipant`
of `src/types.ts`); `joinedAt` is a `Date.now()` timestamp. -/
structure Participant where
  id : String
  name : String
  isHost : Bool
  joinedAt : Nat
deriving DecidableEq, Repr

/-- The server-side view of an incoming `GroupMessage`: the envelope fields
it dispatches on plus the one extra field it reads (`newHostId`, absent on
most message kinds). -/
structure ServerMessage where
  msgType : String
  senderId : String
  timestamp : Nat
  newHostId : Option String
deriving DecidableEq, Repr

/-- The per-room state of `class GroupServer`: `participants` is the JS
`Map<string, Participant>` in insertion order, `hostId` the nullable host
pointer. -/
structure Room where
  participants : List Participant
  hostId : Option String
deriving DecidableEq, Repr

/-- A fresh room: empty map, no host. -/
def Room.empty : Room := { participants := [], hostId := none }

/-- JS `Map.set`: replace in place when the key is present, append
otherwise. -/
def mapSet (ps : List Participant) (p : Participant) : List Participant :=
  if ps.any (fun q => q.id == p.id) then
    ps.map (fun q => if q.id == p.id then p else q)
  else ps ++ [p]

/-- JS truthiness of the nullable `hostId` (`!this.hostId`): `null` and the
empty string are falsy. -/
def hostIdFalsy : Option String → Bool
  | none => true
  | some s => s == ""

/-- JS truthiness of the `newHostId` field (`data.newHostId`). -/
def newHostIdTruthy : Option String → Bool
  | none => false
  | some s => s != ""

/-- The body of the `onClose` selection loop: keep the entry with the
strictly smallest `joinedAt` seen so far (the first one wins ties). -/
def earlier (earliest : Option Participant) (p : Participant) : Option Participant :=
  match earliest with
  | none => some p
  | some e => if p.joinedAt < e.joinedAt then some p else some e

/-- The `onClose` loop over `participants.values()` (map insertion order). -/
def earliestOf (ps : List Participant) : Option Participant :=
  ps.foldl earlier none

/-- Set the `isHost` flag on the map entry with the given id (the server
mutates the `Participant` object held in the map). -/
def setHostFlag (ps : List Participant) (pid : String) (b : Bool) : List Participant :=
  ps.map (fun q => if q.id == pid then { q with isHost := b } else q)

/-- The connection ids of a room: one live connection per participant. -/
def Room.connectionIds (r : Room) : List String := r.participants.map (fun p => p.id)

/-- What the server pushes out: a verbatim relay of an incoming message to
the listed connections, or a `participant-update` roster broadcast. -/
inductive ServerOutput
  | relay (recipients : List String) (msg : ServerMessage)
  | roster (recipients : List String) (participants : List Participant)
deriving DecidableEq, Repr

/-- `broadcastParticipants()`: a `participant-update` carrying
`Array.from(participants.values())`, sent to every connection. -/
def Room.rosterBroadcast (r : Room) : ServerOutput :=
  .roster r.connectionIds r.participants

/-- `onConnect(conn, ctx)`: read `name` and host-intent from the URL; grant
host status iff the intent is set and the room has no host yet (a second
host-intent connection is demoted to participant); insert the participant
and broadcast the roster. -/
def Room.onConnect (r : Room) (connId name : String) (hostIntent : Bool)
    (now : Nat) : Room × List ServerOutput :=
  let wantHost := hostIntent && hostIdFalsy r.hostId
  let participant : Participant :=
    { id := connId, name := name, isHost := wantHost, joinedAt := now }
  let r' : Room :=
    { participants := mapSet r.participants participant,
      hostId := if wantHost then some connId else r.hostId }
  (r', [r'.rosterBroadcast])

/-- `onMessage(message, sender)`: dispatch on the message type.
`state-sync`/`control` are relayed to every other connection only when the
sending connection is the host; `join` re-broadcasts the roster; `leave` is
a no-op; `transfer-host` from the host flips both parties' flags and moves
the host pointer; any other type is relayed to all connections. -/
def Room.onMessage (r : Room) (senderConnId : String) (data : ServerMessage) :
    Room × List ServerOutput :=
  if data.msgType == "state-sync" || data.msgType == "control" then
    if r.hostId == some senderConnId then
      (r, [.relay (r.connectionIds.filter (fun i => i != senderConnId)) data])
    else (r, [])
  else if data.msgType == "join" then (r, [r.rosterBroadcast])
  else if data.msgType == "leave" then (r, [])
  else if data.msgType == "transfer-host" then
    if r.hostId == some senderConnId && newHostIdTruthy data.newHostId then
      match data.newHostId with
      | some nh =>
        if (r.participants.any (fun q => q.id == nh)) &&
            (r.participants.any (fun q => q.id == senderConnId)) then
          let ps := setHostFlag (setHostFlag r.participants senderConnId false) nh true
          let r' : Room := { participants := ps, hostId := some nh }
          (r', [r'.rosterBroadcast])
        else (r, [])
      | none => (r, [])
    else (r, [])
  else (r, [.relay r.connectionIds data])

/-- `onClose(conn)`: remove the participant; when the departing connection
was the host, clear the host pointer and, if participants remain, promote
the earliest-joined one; always broadcast the roster. -/
def Room.onClose (r : Room) (connId : String) : Room × List ServerOutput :=
  let ps := r.participants.filter (fun p => p.id != connId)
  if r.hostId == some connId then
    match earliestOf ps with
    | some e =>
      let r' : Room := { participants := setHostFlag ps e.id true, hostId := some e.id }
      (r', [r'.rosterBroadcast])
    | none =>
      let r' : Room := { participants := ps, hostId := none }
      (r', [r'.rosterBroadcast])
  else
    let r' : Room := { participants := ps, hostId := r.hostId }
    (r', [r'.rosterBroadcast])

/-- One server event applied to a room.  A connect carries a fresh,
non-empty connection id: the relay assigns one id per live connection
(the spec's data model: "identity is the connection-scoped id assigned at
join time; uniqueness holds only within one room's lifetime"). -/
inductive Room.Step : Room → Room → Prop
  | connect (r : Room) (connId name : String) (hostIntent : Bool) (now : Nat)
      (hfresh : connId ∉ r.connectionIds) (hne : connId ≠ "") :
      Room.Step r (r.onConnect connId name hostIntent now).1
  | message (r : Room) (senderConnId : String) (data : ServerMessage) :
      Room.Step r (r.onMessage senderConnId data).1
  | close (r : Room) (connId : String) :
      Room.Step r (r.onClose connId).1

/-- The rooms reachable from the empty room by any sequence of connects,
messages and disconnects. -/
inductive Room.Reachable : Room → Prop
  | empty : Room.Reachable Room.empty
  | step {r r' : Room} : Room.Reachable r → Room.Step r r' → Room.Reachable r'

/-! ### The room invariant -/

/-- The well-formedness invariant of a room: connection ids are distinct and
non-empty, a participant's `isHost` flag holds exactly when the host pointer
names it, and the host pointer (when set) names a present, non-empty id. -/
def Room.WF (r : Room) : Prop :=
  (r.participants.map (fun p => p.id)).Nodup ∧
  (∀ p ∈ r.participants, p.id ≠ "") ∧
  (∀ p ∈ r.participants, (p.isHost = true ↔ r.hostId = some p.id)) ∧
  (∀ h : String, r.hostId = some h → h ≠ "" ∧ h ∈ r.connectionIds)

theorem setHostFlag_map_id (ps : List Participant) (pid : String) (b : Bool) :
    (setHostFlag ps pid b).map (fun p => p.id) = ps.map (fun p => p.id) := by
  unfold setHostFlag
  rw [List.map_map]
  refine List.map_congr_left ?_
  intro q _
  by_cases h : (q.id == pid) = true <;> simp [h, Function.comp]

theorem mem_setHostFlag {q' : Participant} {ps : List Participant}
    {pid : String} {b : Bool} :
    q' ∈ setHostFlag ps pid b ↔
      ∃ q ∈ ps, q' = if (q.id == pid) = true then { q with isHost := b } else q := by
  unfold setHostFlag
  rw [List.mem_map]
  constructor
  · rintro ⟨q, hq, rfl⟩
    exact ⟨q, hq, by by_cases h : (q.id == pid) = true <;> simp [h]⟩
  · rintro ⟨q, hq, rfl⟩
    exact ⟨q, hq, by by_cases h : (q.id == pid) = true <;> simp [h]⟩

theorem foldl_earlier_some (ps : List Participant) (a : Participant) :
    ∃ e, ps.foldl earlier (some a) = some e ∧ (e = a ∨ e ∈ ps) ∧
      e.joinedAt ≤ a.joinedAt ∧ ∀ q ∈ ps, e.joinedAt ≤ q.joinedAt := by
  induction ps generalizing a with
  | nil => exact ⟨a, rfl, Or.inl rfl, le_refl _, by simp⟩
  | cons p rest ih =>
    by_cases hlt : p.joinedAt < a.joinedAt
    · obtain ⟨e, he, hmem, hle, hall⟩ := ih p
      refine ⟨e, ?_, ?_, ?_, ?_⟩
      · simpa [earlier, hlt] using he
      · rcases hmem with rfl | h
        · exact Or.inr (List.mem_cons_self _ _)
        · exact Or.inr (List.mem_cons_of_mem _ h)
      · omega
      · intro q hq
        rcases List.mem_cons.mp hq with rfl | hq'
        · exact hle
        · exact hall q hq'
    · obtain ⟨e, he, hmem, hle, hall⟩ := ih a
      refine ⟨e, ?_, ?_, hle, ?_⟩
      · simpa [earlier, hlt] using he
      · rcases hmem with rfl | h
        · exact Or.inl rfl
        · exact Or.inr (List.mem_cons_of_mem _ h)
      · intro q hq
        rcases List.mem_cons.mp hq with rfl | hq'
        · omega
        · exact hall q hq'

theorem earliestOf_spec {ps : List Participant} {e : Participant}
    (h : earliestOf ps = some e) :
    e ∈ ps ∧ ∀ q ∈ ps, e.joinedAt ≤ q.joinedAt := by
  cases ps with
  | nil => simp [earliestOf] at h
  | cons p rest =>
    obtain ⟨e', he', hmem, hle, hall⟩ := foldl_earlier_some rest p
    have : earliestOf (p :: rest) = some e' := by
      simpa [earliestOf, earlier] using he'
    rw [this] at h
    obtain rfl : e' = e := by injection h
    refine ⟨?_, ?_⟩
    · rcases hmem with rfl | hm
      · exact List.mem_cons_self _ _
      · exact List.mem_cons_of_mem _ hm
    · intro q hq
      rcases List.mem_cons.mp hq with rfl | hq'
      · exact hle
      · exact hall q hq'

theorem earliestOf_eq_none {ps : List Participant} :
    earliestOf ps = none ↔ ps = [] := by
  cases ps with
  | nil => simp [earliestOf]
  | cons p rest =>
    obtain ⟨e', he', _, _, _⟩ := foldl_earlier_some rest p
    have : earliestOf (p :: rest) = some e' := by
      simpa [earliestOf, earlier] using he'
    simp [this]

theorem hostIdFalsy_eq_none {r : Room} (hWF : r.WF)
    (h : hostIdFalsy r.hostId = true) : r.hostId = none := by
  obtain ⟨-, -, -, hhost⟩ := hWF
  cases hh : r.hostId with
  | none => rfl
  | some s =>
    have hs := (hhost s hh).1
    rw [hh] at h
    simp [hostIdFalsy] at h
    exact absurd h hs

theorem WF_onConnect {r : Room} (hWF : r.WF) (connId name : String)
    (hostIntent : Bool) (now : Nat) (hfresh : connId ∉ r.connectionIds)
    (hne : connId ≠ "") : (r.onConnect connId name hostIntent now).1.WF := by
  obtain ⟨hnd, hids, hiff, hhost⟩ := hWF
  have hfresh' : ∀ q ∈ r.participants, q.id ≠ connId := fun q hq hcontra =>
    hfresh (hcontra ▸ List.mem_map_of_mem (fun p => p.id) hq)
  have hany : (r.participants.any fun q => q.id == connId) = false := by
    rw [List.any_eq_false]
    intro q hq
    simpa using hfresh' q hq
  by_cases hwb : (hostIntent && hostIdFalsy r.hostId) = true
  · -- the connection is granted host status; the room had no host
    have hfal : hostIdFalsy r.hostId = true := by
      have h2 := hwb
      simp only [Bool.and_eq_true] at h2
      exact h2.2
    have hnone : r.hostId = none :=
      hostIdFalsy_eq_none ⟨hnd, hids, hiff, hhost⟩ hfal
    have hres : (r.onConnect connId name hostIntent now).1 =
        { participants := r.participants ++
            [{ id := connId, name := name, isHost := true, joinedAt := now }],
          hostId := some connId } := by
      simp [Room.onConnect, mapSet, hany, hwb]
    rw [hres]
    refine ⟨?_, ?_, ?_, ?_⟩
    · simp only [List.map_append, List.map_cons, List.map_nil]
      refine List.nodup_append.mpr ⟨hnd, List.nodup_singleton _, ?_⟩
      intro x hx hx2
      simp at hx2
      subst hx2
      exact hfresh hx
    · intro p hp
      rcases List.mem_append.mp hp with hmem | hmem
      · exact hids p hmem
      · simp at hmem
        subst hmem
        exact hne
    · intro p hp
      rcases List.mem_append.mp hp with hmem | hmem
      · have hpfalse : p.isHost = false := by
          have h2 := hiff p hmem
          rw [hnone] at h2
          simpa using h2
        rw [hpfalse]
        simp only [Bool.false_eq_true, false_iff, Option.some.injEq]
        intro habs
        exact hfresh' p hmem habs.symm
      · simp at hmem
        subst hmem
        simp
    · intro h hh
      simp only [Option.some.injEq] at hh
      subst hh
      refine ⟨hne, ?_⟩
      simp [Room.connectionIds]
  · -- admitted as a plain participant; the host pointer is unchanged
    have hres : (r.onConnect connId name hostIntent now).1 =
        { participants := r.participants ++
            [{ id := connId, name := name, isHost := false, joinedAt := now }],
          hostId := r.hostId } := by
      simp only [Bool.not_eq_true] at hwb
      simp [Room.onConnect, mapSet, hany, hwb]
    rw [hres]
    refine ⟨?_, ?_, ?_, ?_⟩
    · simp only [List.map_append, List.map_cons, List.map_nil]
      refine List.nodup_append.mpr ⟨hnd, List.nodup_singleton _, ?_⟩
      intro x hx hx2
      simp at hx2
      subst hx2
      exact hfresh hx
    · intro p hp
      rcases List.mem_append.mp hp with hmem | hmem
      · exact hids p hmem
      · simp at hmem
        subst hmem
        exact hne
    · intro p hp
      rcases List.mem_append.mp hp with hmem | hmem
      · exact hiff p hmem
      · simp at hmem
        subst hmem
        simp only [Bool.false_eq_true, false_iff]
        intro habs
        have := (hhost connId habs).2
        exact hfresh this
    · intro h hh
      obtain ⟨h1, h2⟩ := hhost h hh
      refine ⟨h1, ?_⟩
      simp only [Room.connectionIds] at h2 ⊢
      simp only [List.map_append, List.map_cons, List.map_nil]
      exact List.mem_append.mpr (Or.inl h2)

theorem setHostFlag_fields {q' : Participant} {ps : List Participant}
    {pid : String} {b : Bool} (h : q' ∈ setHostFlag ps pid b) :
    ∃ q ∈ ps, q'.id = q.id ∧ q'.isHost = (if q.id == pid then b else q.isHost) := by
  obtain ⟨q, hq, rfl⟩ := List.mem_map.mp h
  by_cases hid : (q.id == pid) = true <;> exact ⟨q, hq, by simp [hid], by simp [hid]⟩

theorem WF_transfer {r : Room} (hWF : r.WF) {senderConnId nh : String}
    (hh : r.hostId = some senderConnId) (hnhne : nh ≠ "")
    (hin : nh ∈ r.participants.map (fun p => p.id)) :
    Room.WF
      { participants := setHostFlag (setHostFlag r.participants senderConnId false) nh true,
        hostId := some nh } := by
  obtain ⟨hnd, hids, hiff, hhost⟩ := hWF
  refine ⟨?_, ?_, ?_, ?_⟩
  · rw [setHostFlag_map_id, setHostFlag_map_id]
    exact hnd
  · intro p hp
    obtain ⟨q, hq, hid, -⟩ := setHostFlag_fields hp
    obtain ⟨q0, hq0, hid0, -⟩ := setHostFlag_fields hq
    rw [hid, hid0]
    exact hids q0 hq0
  · intro p hp
    obtain ⟨q, hq, hid, hflag⟩ := setHostFlag_fields hp
    obtain ⟨q0, hq0, hid0, hflag0⟩ := setHostFlag_fields hq
    by_cases hnh9 : (q.id == nh) = true
    · have hq_nh : q.id = nh := by simpa using hnh9
      rw [hflag, if_pos hnh9, hid, hq_nh]
      simp
    · have hq_ne : p.id ≠ nh := by
        rw [hid]
        simpa using hnh9
      rw [hflag, if_neg hnh9]
      have hqfalse : q.isHost = false := by
        by_cases hs : (q0.id == senderConnId) = true
        · rw [hflag0, if_pos hs]
        · rw [hflag0, if_neg hs]
          have h2 := hiff q0 hq0
          rw [hh] at h2
          rcases hq0b : q0.isHost with _ | _
          · rfl
          · exfalso
            have := h2.mp hq0b
            simp only [Option.some.injEq] at this
            exact hs (by simpa using this.symm)
      rw [hqfalse]
      simp only [Bool.false_eq_true, false_iff, Option.some.injEq]
      exact fun habs => hq_ne habs.symm
  · intro h hh2
    simp only [Option.some.injEq] at hh2
    subst hh2
    refine ⟨hnhne, ?_⟩
    simp only [Room.connectionIds]
    rw [setHostFlag_map_id, setHostFlag_map_id]
    exact hin

theorem WF_onMessage {r : Room} (hWF : r.WF) (senderConnId : String)
    (data : ServerMessage) : (r.onMessage senderConnId data).1.WF := by
  by_cases h1 : (data.msgType == "state-sync" || data.msgType == "control") = true
  · have hres : (r.onMessage senderConnId data).1 = r := by
      by_cases h2 : (r.hostId == some senderConnId) = true <;>
        simp [Room.onMessage, h1, h2]
    rw [hres]
    exact hWF
  · rw [Bool.not_eq_true] at h1
    by_cases h2 : (data.msgType == "join") = true
    · have hres : (r.onMessage senderConnId data).1 = r := by
        simp [Room.onMessage, h1, h2]
      rw [hres]
      exact hWF
    · rw [Bool.not_eq_true] at h2
      by_cases h3 : (data.msgType == "leave") = true
      · have hres : (r.onMessage senderConnId data).1 = r := by
          simp [Room.onMessage, h1, h2, h3]
        rw [hres]
        exact hWF
      · rw [Bool.not_eq_true] at h3
        by_cases h4 : (data.msgType == "transfer-host") = true
        · by_cases h5 :
              (r.hostId == some senderConnId && newHostIdTruthy data.newHostId) = true
          · rw [Bool.and_eq_true] at h5
            cases hnh : data.newHostId with
            | none =>
              exfalso
              have := h5.2
              rw [hnh] at this
              simp [newHostIdTruthy] at this
            | some nh =>
              by_cases h6 : ((r.participants.any fun q => q.id == nh) &&
                  (r.participants.any fun q => q.id == senderConnId)) = true
              · have h7 : newHostIdTruthy (some nh) = true := hnh ▸ h5.2
                have hres : (r.onMessage senderConnId data).1 =
                    { participants :=
                        setHostFlag (setHostFlag r.participants senderConnId false) nh true,
                      hostId := some nh } := by
                  simp [Room.onMessage, h1, h2, h3, h4, h5.1, h5.2, hnh, h6, h7]
                rw [hres]
                have hhEq : r.hostId = some senderConnId := eq_of_beq h5.1
                have hnhne : nh ≠ "" := by
                  have := h5.2
                  rw [hnh] at this
                  simpa [newHostIdTruthy] using this
                have hin : nh ∈ r.participants.map (fun p => p.id) := by
                  rw [Bool.and_eq_true] at h6
                  obtain ⟨q, hq, hqe⟩ := List.any_eq_true.mp h6.1
                  exact List.mem_map.mpr ⟨q, hq, by simpa using hqe⟩
                exact WF_transfer hWF hhEq hnhne hin
              · rw [Bool.not_eq_true] at h6
                have h7 : newHostIdTruthy (some nh) = true := hnh ▸ h5.2
                have hres : (r.onMessage senderConnId data).1 = r := by
                  simp [Room.onMessage, h1, h2, h3, h4, h5.1, h5.2, hnh, h6, h7]
                rw [hres]
                exact hWF
          · rw [Bool.not_eq_true] at h5
            have hres : (r.onMessage senderConnId data).1 = r := by
              simp only [Room.onMessage, h1, h2, h3, h4, h5]
              simp
            rw [hres]
            exact hWF
        · rw [Bool.not_eq_true] at h4
          have hres : (r.onMessage senderConnId data).1 = r := by
            simp [Room.onMessage, h1, h2, h3, h4]
          rw [hres]
          exact hWF

theorem WF_onClose {r : Room} (hWF : r.WF) (connId : String) :
    (r.onClose connId).1.WF := by
  obtain ⟨hnd, hids, hiff, hhost⟩ := hWF
  have hndf : ((r.participants.filter fun p => p.id != connId).map
      (fun p => p.id)).Nodup :=
    List.Nodup.sublist (List.Sublist.map _ (List.filter_sublist _)) hnd
  have hidsf : ∀ p ∈ r.participants.filter (fun p => p.id != connId), p.id ≠ "" :=
    fun p hp => hids p (List.mem_of_mem_filter hp)
  by_cases hh : (r.hostId == some connId) = true
  · have hhEq : r.hostId = some connId := eq_of_beq hh
    cases he : earliestOf (r.participants.filter fun p => p.id != connId) with
    | none =>
      have hres : (r.onClose connId).1 =
          { participants := r.participants.filter (fun p => p.id != connId),
            hostId := none } := by
        simp [Room.onClose, hh, he]
      rw [hres]
      have hempty : r.participants.filter (fun p => p.id != connId) = [] :=
        earliestOf_eq_none.mp he
      refine ⟨?_, ?_, ?_, ?_⟩ <;> simp [hempty]
    | some e =>
      have hres : (r.onClose connId).1 =
          { participants :=
              setHostFlag (r.participants.filter fun p => p.id != connId) e.id true,
            hostId := some e.id } := by
        simp [Room.onClose, hh, he]
      rw [hres]
      obtain ⟨hemem, -⟩ := earliestOf_spec he
      refine ⟨?_, ?_, ?_, ?_⟩
      · rw [setHostFlag_map_id]
        exact hndf
      · intro p hp
        obtain ⟨q, hq, hid, -⟩ := setHostFlag_fields hp
        rw [hid]
        exact hidsf q hq
      · intro p hp
        obtain ⟨q, hq, hid, hflag⟩ := setHostFlag_fields hp
        by_cases hqe : (q.id == e.id) = true
        · rw [hflag, if_pos hqe, hid, show q.id = e.id from by simpa using hqe]
          simp
        · rw [hflag, if_neg hqe]
          have hqid : q.id ≠ connId := by
            have := List.of_mem_filter hq
            simpa using this
          have hqfalse : q.isHost = false := by
            have h2 := hiff q (List.mem_of_mem_filter hq)
            rw [hhEq] at h2
            rcases hqb : q.isHost with _ | _
            · rfl
            · exfalso
              have := h2.mp hqb
              simp only [Option.some.injEq] at this
              exact hqid this.symm
          rw [hqfalse]
          simp only [Bool.false_eq_true, false_iff, Option.some.injEq]
          intro habs
          rw [hid] at habs
          exact hqe (by simpa using habs.symm)
      · intro h hh2
        simp only [Option.some.injEq] at hh2
        subst hh2
        refine ⟨hidsf e hemem, ?_⟩
        simp only [Room.connectionIds]
        rw [setHostFlag_map_id]
        exact List.mem_map_of_mem (fun p => p.id) hemem
  · rw [Bool.not_eq_true] at hh
    have hres : (r.onClose connId).1 =
        { participants := r.participants.filter (fun p => p.id != connId),
          hostId := r.hostId } := by
      simp [Room.onClose, hh]
    rw [hres]
    have hhNe : r.hostId ≠ some connId := fun habs => by simp [habs] at hh
    refine ⟨hndf, hidsf, ?_, ?_⟩
    · intro p hp
      exact hiff p (List.mem_of_mem_filter hp)
    · intro h hh2
      obtain ⟨h1, h2⟩ := hhost h hh2
      refine ⟨h1, ?_⟩
      obtain ⟨q, hq, hqid⟩ := List.mem_map.mp h2
      have hqne : q.id ≠ connId := by
        intro habs
        exact hhNe (by rw [hh2, ← hqid, habs])
      exact List.mem_map.mpr
        ⟨q, List.mem_filter.mpr ⟨hq, by simpa using hqne⟩, hqid⟩

theorem Reachable_WF {r : Room} (h : Room.Reachable r) : r.WF := by
  induction h with
  | empty =>
    refine ⟨?_, ?_, ?_, ?_⟩ <;> simp [Room.empty]
  | step hr hstep ih =>
    cases hstep with
    | connect connId name hostIntent now hfresh hne =>
      exact WF_onConnect ih connId name hostIntent now hfresh hne
    | message senderConnId data => exact WF_onMessage ih senderConnId data
    | close connId => exact WF_onClose ih connId

theorem countP_le_one_of_unique_id {ps : List Participant} (hid : String)
    (hnd : (ps.map (fun p => p.id)).Nodup)
    (huniq : ∀ p ∈ ps, p.isHost = true → p.id = hid) :
    ps.countP (fun p => p.isHost) ≤ 1 := by
  induction ps with
  | nil => simp
  | cons p rest ih =>
    rw [List.map_cons, List.nodup_cons] at hnd
    rw [List.countP_cons]
    by_cases hp : p.isHost = true
    · have hpid : p.id = hid := huniq p (List.mem_cons_self _ _) hp
      have hrest : rest.countP (fun p => p.isHost) = 0 := by
        rw [List.countP_eq_zero]
        intro q hq hqh
        have hqid : q.id = hid :=
          huniq q (List.mem_cons_of_mem _ hq) (by simpa using hqh)
        exact hnd.1 (List.mem_map.mpr ⟨q, hq, by rw [hqid, hpid]⟩)
      simp [hp, hrest]
    · have hp' : p.isHost = false := by simpa using hp
      have := ih hnd.2 (fun q hq h => huniq q (List.mem_cons_of_mem _ hq) h)
      simp [hp']
      omega

/-- C1: in every reachable room state (any sequence of connects with
arbitrary host-intent flags, messages — `transfer-host` included — and
disconnects), at most one participant has `isHost = true`, and `hostId` is
null exactly when no participant currently has `isHost = true`. -/
theorem c1_single_host_invariant (r : Room) (h : Room.Reachable r) :
    r.participants.countP (fun p => p.isHost) ≤ 1 ∧
    (r.hostId = none ↔ ∀ p ∈ r.participants, p.isHost = false) := by
  obtain ⟨hnd, hids, hiff, hhost⟩ := Reachable_WF h
  refine ⟨?_, ?_, ?_⟩
  · cases hhid : r.hostId with
    | none =>
      have hz : r.participants.countP (fun p => p.isHost) = 0 := by
        rw [List.countP_eq_zero]
        intro p hp
        have h2 := hiff p hp
        rw [hhid] at h2
        simpa using h2
      omega
    | some hid =>
      refine countP_le_one_of_unique_id hid hnd ?_
      intro p hp hph
      have h2 := (hiff p hp).mp hph
      rw [hhid] at h2
      simpa using h2.symm
  · intro hnone p hp
    have h2 := hiff p hp
    rw [hnone] at h2
    rcases hb : p.isHost with _ | _
    · rfl
    · exact absurd (h2.mp hb) (by simp)
  · intro hall
    cases hhid : r.hostId with
    | none => rfl
    | some hid =>
      obtain ⟨-, hmem⟩ := hhost hid hhid
      obtain ⟨q, hq, hqid⟩ := List.mem_map.mp hmem
      have hqh := (hiff q hq).mpr (by rw [hhid, hqid])
      rw [hall q hq] at hqh
      cases hqh

theorem c1_single_host_invariant_witness :
    Room.Reachable (Room.empty.onConnect "a" "Alice" true 5).1 ∧
    ((Room.empty.onConnect "a" "Alice" true 5).1.participants.countP
        (fun p => p.isHost) ≤ 1 ∧
     ((Room.empty.onConnect "a" "Alice" true 5).1.hostId = none ↔
        ∀ p ∈ (Room.empty.onConnect "a" "Alice" true 5).1.participants,
          p.isHost = false)) :=
  ⟨Room.Reachable.step Room.Reachable.empty
     (Room.Step.connect Room.empty "a" "Alice" true 5 (by simp [Room.empty,
        Room.connectionIds]) (by decide)),
   c1_single_host_invariant _
     (Room.Reachable.step Room.Reachable.empty
       (Room.Step.connect Room.empty "a" "Alice" true 5 (by simp [Room.empty,
          Room.connectionIds]) (by decide)))⟩

/-- C2: a `state-sync` or `control` message leaves the room unchanged and is
forwarded to nobody when the sending connection is not the current host
(`hostId` null included); when the sender is the host it is relayed verbatim
to every other connection in the room. -/
theorem c2_host_authority (r : Room) (senderConnId : String)
    (data : ServerMessage)
    (hty : data.msgType = "state-sync" ∨ data.msgType = "control") :
    (r.onMessage senderConnId data).1 = r ∧
    (r.hostId ≠ some senderConnId → (r.onMessage senderConnId data).2 = []) ∧
    (r.hostId = some senderConnId →
       (r.onMessage senderConnId data).2 =
         [ServerOutput.relay
            (r.connectionIds.filter fun i => i != senderConnId) data]) := by
  have h1 : (data.msgType == "state-sync" || data.msgType == "control") = true := by
    rcases hty with h | h <;> simp [h]
  by_cases h2 : (r.hostId == some senderConnId) = true
  · have hEq : r.hostId = some senderConnId := eq_of_beq h2
    exact ⟨by simp [Room.onMessage, h1, h2], fun hne => absurd hEq hne,
           fun _ => by simp [Room.onMessage, h1, h2]⟩
  · rw [Bool.not_eq_true] at h2
    have hNe : r.hostId ≠ some senderConnId := fun habs => by simp [habs] at h2
    exact ⟨by simp [Room.onMessage, h1, h2], fun _ => by
      simp [Room.onMessage, h1, h2], fun heq => absurd heq hNe⟩

theorem c2_host_authority_witness :
    ((⟨"state-sync", "x", 0, none⟩ : ServerMessage).msgType = "state-sync" ∨
       (⟨"state-sync", "x", 0, none⟩ : ServerMessage).msgType = "control") ∧
    ((Room.empty.onMessage "x" ⟨"state-sync", "x", 0, none⟩).1 = Room.empty ∧
     (Room.empty.hostId ≠ some "x" →
        (Room.empty.onMessage "x" ⟨"state-sync", "x", 0, none⟩).2 = []) ∧
     (Room.empty.hostId = some "x" →
        (Room.empty.onMessage "x" ⟨"state-sync", "x", 0, none⟩).2 =
          [ServerOutput.relay
             (Room.empty.connectionIds.filter fun i => i != "x")
             ⟨"state-sync", "x", 0, none⟩])) :=
  ⟨Or.inl rfl, c2_host_authority Room.empty "x" ⟨"state-sync", "x", 0, none⟩
    (Or.inl rfl)⟩

/-- C4: when the host's connection closes, the room either ends hostless
(no participants remained) or promotes a remaining participant whose
`joinedAt` is minimal — its `isHost` set, `hostId` pointing at it — and in
either case exactly one roster broadcast is emitted. -/
theorem c4_host_failover (r : Room) (connId : String)
    (hhostid : r.hostId = some connId) :
    (r.participants.filter (fun p => p.id != connId) = [] →
       (r.onClose connId).1.hostId = none ∧
       (r.onClose connId).1.participants = []) ∧
    (r.participants.filter (fun p => p.id != connId) ≠ [] →
       ∃ e ∈ r.participants.filter (fun p => p.id != connId),
         (∀ q ∈ r.participants.filter (fun p => p.id != connId),
            e.joinedAt ≤ q.joinedAt) ∧
         (r.onClose connId).1.hostId = some e.id ∧
         (r.onClose connId).1.participants =
           setHostFlag (r.participants.filter fun p => p.id != connId) e.id true ∧
         { e with isHost := true } ∈ (r.onClose connId).1.participants) ∧
    (r.onClose connId).2 = [(r.onClose connId).1.rosterBroadcast] := by
  have hh : (r.hostId == some connId) = true := by simp [hhostid]
  cases he : earliestOf (r.participants.filter fun p => p.id != connId) with
  | none =>
    have hempty : r.participants.filter (fun p => p.id != connId) = [] :=
      earliestOf_eq_none.mp he
    have hres : (r.onClose connId).1 =
        { participants := r.participants.filter (fun p => p.id != connId),
          hostId := none } := by
      simp [Room.onClose, hh, he]
    refine ⟨fun _ => ?_, fun hne => absurd hempty hne, ?_⟩
    · rw [hres]
      exact ⟨rfl, hempty⟩
    · simp [Room.onClose, hh, he]
  | some e =>
    obtain ⟨hemem, hmin⟩ := earliestOf_spec he
    have hnonempty : r.participants.filter (fun p => p.id != connId) ≠ [] := by
      intro habs
      rw [habs] at he
      simp [earliestOf] at he
    refine ⟨fun habs => absurd habs hnonempty, fun _ => ?_, ?_⟩
    · refine ⟨e, hemem, hmin, ?_, ?_, ?_⟩
      · simp [Room.onClose, hh, he]
      · simp [Room.onClose, hh, he]
      · have : ({ e with isHost := true } : Participant) ∈
            setHostFlag (r.participants.filter fun p => p.id != connId) e.id true :=
          List.mem_map.mpr ⟨e, hemem, by simp⟩
        simpa [Room.onClose, hh, he] using this
    · simp [Room.onClose, hh, he]

theorem c4_host_failover_witness :
    ({ participants := [⟨"h", "Hana", true, 0⟩, ⟨"b", "Bo", false, 2⟩,
         ⟨"c", "Cy", false, 1⟩], hostId := some "h" } : Room).hostId = some "h" ∧
    (({ participants := [⟨"h", "Hana", true, 0⟩, ⟨"b", "Bo", false, 2⟩,
          ⟨"c", "Cy", false, 1⟩], hostId := some "h" } : Room).onClose
        "h").1.hostId = some "c" :=
  ⟨rfl, by
    have h := (c4_host_failover
      { participants := [⟨"h", "Hana", true, 0⟩, ⟨"b", "Bo", false, 2⟩,
          ⟨"c", "Cy", false, 1⟩], hostId := some "h" } "h" rfl).2.1
      (by decide)
    obtain ⟨e, hemem, hmin, hhid, -, -⟩ := h
    have he : e = ⟨"c", "Cy", false, 1⟩ := by
      have h2 := hmin ⟨"c", "Cy", false, 1⟩ (by decide)
      rcases (by decide : ∀ x ∈ ([⟨"h", "Hana", true, 0⟩, ⟨"b", "Bo", false, 2⟩,
          ⟨"c", "Cy", false, 1⟩] : List Participant).filter (fun p => p.id != "h"),
          x.joinedAt ≤ 1 → x = ⟨"c", "Cy", false, 1⟩) e hemem h2 with h3
      exact h3
    rw [he] at hhid
    exact hhid⟩

/-! ## The relay client (`src/group/client.ts`, `src/group/config.ts`) -/

/-- `GroupConnectionState` (`src/types.ts`). -/
inductive GroupConnectionState
  | disconnected
  | connecting
  | connected
  | error
deriving DecidableEq, Repr

/-- `GROUP_CONFIG.stateSyncInterval` (milliseconds). -/
def stateSyncInterval : Nat := 1000

/-- `GROUP_CONFIG.maxReconnectAttempts`. -/
def maxReconnectAttempts : Nat := 5

/-- `GROUP_CONFIG.reconnectDelayBase` (milliseconds). -/
def reconnectDelayBase : Nat := 1000

/-- The fields of `class GroupClient` the reconnect logic reads and writes:
the observable connection state and the attempt counter.  (The socket object
itself and the pending-timer handle carry no further information for these
claims: a scheduled delay is returned explicitly by the step functions.) -/
structure GroupClient where
  connectionState : GroupConnectionState
  reconnectAttempts : Nat
deriving DecidableEq, Repr

/-- A freshly constructed client: `connectionState = "disconnected"`,
`reconnectAttempts = 0`. -/
def GroupClient.mk0 : GroupClient :=
  { connectionState := .disconnected, reconnectAttempts := 0 }

/-- The synchronous effect of `connect()` on the modelled fields: it sets the
state to `connecting` and opens a socket.  It does NOT touch
`reconnectAttempts`. -/
def GroupClient.connectCall (c : GroupClient) : GroupClient :=
  { c with connectionState := .connecting }

/-- The `socket.onopen` handler: reset the attempt counter to zero and mark
the client connected (the `join` send has no effect on these fields). -/
def GroupClient.transportOpen (_c : GroupClient) : GroupClient :=
  { connectionState := .connected, reconnectAttempts := 0 }

/-- `handleDisconnect()` (the `socket.onclose` path): a no-op in the
user-initiated `disconnected` state; while attempts remain, increment the
counter, enter `connecting` and schedule a reconnect after
`reconnectDelayBase * 2^(attempts-1)` ms (the returned delay); otherwise
enter the terminal `error` state and schedule nothing. -/
def GroupClient.handleDisconnect (c : GroupClient) : GroupClient × Option Nat :=
  if c.connectionState = .disconnected then (c, none)
  else if c.reconnectAttempts < maxReconnectAttempts then
    ({ connectionState := .connecting,
       reconnectAttempts := c.reconnectAttempts + 1 },
     some (reconnectDelayBase * 2 ^ (c.reconnectAttempts + 1 - 1)))
  else ({ c with connectionState := .error }, none)

/-- `disconnect()`: cancel any reconnect timer and mark the client
`disconnected` (the best-effort `leave` send and socket close do not touch
the modelled fields). -/
def GroupClient.disconnectCall (c : GroupClient) : GroupClient :=
  { c with connectionState := .disconnected }

/-- One transport-close cycle in a run with no successful open and no
explicit disconnect: the close fires `handleDisconnect`; when a reconnect
was scheduled, its timer later fires and (the state not being
`disconnected`) calls `connect()`.  Returns the resulting client and the
delay scheduled at this close, if any. -/
def GroupClient.closeCycle (c : GroupClient) : GroupClient × Option Nat :=
  match c.handleDisconnect with
  | (c', some d) => (c'.connectCall, some d)
  | (c', none) => (c', none)

/-- The client after `k` transport closes (each followed by its scheduled
reconnect attempt), starting from `c`; the second component is the delay
scheduled at the `k`-th close. -/
def GroupClient.runCloses (c : GroupClient) : Nat → GroupClient × Option Nat
  | 0 => (c, none)
  | k + 1 => (c.runCloses k).1.closeCycle

theorem runCloses_ge_six (k : Nat) (hk : 6 ≤ k) :
    GroupClient.mk0.connectCall.transportOpen.runCloses k =
      ({ connectionState := .error, reconnectAttempts := 5 }, none) := by
  induction k with
  | zero => omega
  | succ n ih =>
    rcases Nat.lt_or_ge n 6 with hn | hn
    · have : n = 5 := by omega
      subst this
      decide
    · rw [GroupClient.runCloses, ih hn]
      decide

/-- C5: with `GROUP_CONFIG` base delay 1000 ms and cap 5, in a run of
transport closes with no intervening successful open or explicit
disconnect, the `k`-th reconnect attempt (1 ≤ k ≤ 5) is scheduled after
exactly `1000 * 2^(k-1)` ms; the 6th close schedules nothing and leaves the
client in the terminal `error` state, and no close beyond the 5th ever
schedules an attempt. -/
theorem c5_backoff_schedule (k : Nat) (h1 : 1 ≤ k) (h5 : k ≤ 5) :
    (GroupClient.mk0.connectCall.transportOpen.runCloses k).2 =
      some (reconnectDelayBase * 2 ^ (k - 1)) ∧
    (GroupClient.mk0.connectCall.transportOpen.runCloses 6).2 = none ∧
    (GroupClient.mk0.connectCall.transportOpen.runCloses 6).1.connectionState =
      .error ∧
    (∀ m : Nat, 6 ≤ m →
       (GroupClient.mk0.connectCall.transportOpen.runCloses m).2 = none) := by
  refine ⟨?_, by decide, by decide, ?_⟩
  · interval_cases k <;> decide
  · intro m hm
    rcases Nat.exists_eq_add_of_le hm with ⟨n, rfl⟩
    cases n with
    | zero => decide
    | succ n' =>
      show ((GroupClient.mk0.connectCall.transportOpen.runCloses
        (6 + n')).1.closeCycle).2 = none
      rw [runCloses_ge_six (6 + n') (by omega)]
      decide

theorem c5_backoff_schedule_witness :
    1 ≤ 3 ∧ 3 ≤ 5 ∧
    (GroupClient.mk0.connectCall.transportOpen.runCloses 3).2 =
      some (reconnectDelayBase * 2 ^ (3 - 1)) :=
  ⟨by decide, by decide, (c5_backoff_schedule 3 (by decide) (by decide)).1⟩

/-- C7 counterexample: take the client that has just exhausted its 5
reconnect attempts (state `error`, counter 5).  An explicit `connect()` call
leaves the attempt counter at 5 — `connect()` never writes
`reconnectAttempts`; only the `onopen` handler does — so when that fresh
connection's transport closes before opening, no backoff attempt at all is
scheduled and the client drops straight back to `error`: the promised fresh
sequence of up to 5 attempts is not available. -/
theorem c7_connect_reset_counterexample :
    (GroupClient.mk0.connectCall.transportOpen.runCloses 6).1 =
      ({ connectionState := .error, reconnectAttempts := 5 } : GroupClient) ∧
    ((GroupClient.mk0.connectCall.transportOpen.runCloses
        6).1.connectCall).reconnectAttempts = 5 ∧
    ((GroupClient.mk0.connectCall.transportOpen.runCloses
        6).1.connectCall).reconnectAttempts ≠ 0 ∧
    ((GroupClient.mk0.connectCall.transportOpen.runCloses
        6).1.connectCall.handleDisconnect).2 = none ∧
    ((GroupClient.mk0.connectCall.transportOpen.runCloses
        6).1.connectCall.handleDisconnect).1.connectionState = .error := by
  decide

/-- C7 (amended): after the reconnect attempts are exhausted the connection
state is the terminal `error` and no later close of that run schedules an
attempt; the attempt counter is reset to zero by the transport-open handler
— not by the `connect()` call itself, which leaves the counter untouched —
so a fresh sequence of up to 5 backoff attempts becomes available again
exactly once a subsequent connect's transport successfully opens. -/
theorem c7_error_terminal_reset_on_open :
    ((GroupClient.mk0.connectCall.transportOpen.runCloses 6).1.connectionState =
        .error ∧
     ∀ m : Nat, 6 ≤ m →
       (GroupClient.mk0.connectCall.transportOpen.runCloses m).2 = none) ∧
    (∀ c : GroupClient,
       c.connectCall.reconnectAttempts = c.reconnectAttempts ∧
       c.connectCall.transportOpen.reconnectAttempts = 0) ∧
    (∀ c : GroupClient, ∀ k : Nat, 1 ≤ k → k ≤ 5 →
       (c.connectCall.transportOpen.runCloses k).2 =
         some (reconnectDelayBase * 2 ^ (k - 1))) := by
  refine ⟨⟨by decide, ?_⟩, fun c => ⟨rfl, rfl⟩, ?_⟩
  · intro m hm
    rcases Nat.exists_eq_add_of_le hm with ⟨n, rfl⟩
    cases n with
    | zero => decide
    | succ n' =>
      show ((GroupClient.mk0.connectCall.transportOpen.runCloses
        (6 + n')).1.closeCycle).2 = none
      rw [runCloses_ge_six (6 + n') (by omega)]
      decide
  · intro c k h1 h5
    interval_cases k <;> rfl

/-! ## The session manager (`src/group/manager.ts`) -/

/-- `GroupControlAction` (`src/group/types.ts`). -/
inductive GroupControlAction
  | start
  | pause
  | reset
  | skip
deriving DecidableEq, Repr

/-- The client-side `GroupMessage` tagged union (`src/group/types.ts`).
Roster entries reuse `Participant` (`GroupParticipant` in `src/types.ts` has
the same four fields). -/
inductive GroupMessage
  | join (senderId : String) (timestamp : Nat) (name : String) (isHost : Bool)
  | leave (senderId : String) (timestamp : Nat)
  | stateSync (senderId : String) (timestamp : Nat) (state : PomodoroState)
  | control (senderId : String) (timestamp : Nat) (action : GroupControlAction)
  | participantUpdate (senderId : String) (timestamp : Nat)
      (participants : List Participant)
  | transferHost (senderId : String) (timestamp : Nat) (newHostId : String)
  | error (senderId : String) (timestamp : Nat) (message : String)
deriving DecidableEq, Repr

/-- The mutable fields of `class GroupManager`.  `isHostFlag` models the
source's `_isHost` role field; `optionsIsHost` the immutable `options.isHost`
the constructor and `connect()` read; `stateSyncTimerSet` that
`stateSyncTimer ≠ null` (the broadcast interval is installed);
`connectionState` mirrors the client's state as delivered through
`handleConnectionChange`. -/
structure GroupManager where
  pomodoro : Pomodoro
  optionsIsHost : Bool
  participantId : String
  sessionCode : String
  participants : List Participant
  connectionState : GroupConnectionState
  stateSyncTimerSet : Bool
  isHostFlag : Bool
deriving DecidableEq, Repr

/-- The `GroupManager` constructor: `_isHost := options.isHost`, and for
participants (`!options.isHost`) set group mode on the pomodoro
(`this.pomodoro.setGroupMode(true)`).  `sessionCode` stands for the value
the constructor computes (generated for hosts, the provided code for
participants). -/
def GroupManager.mk0 (pomodoro : Pomodoro) (isHost : Bool)
    (sessionCode : String) (participantId : String) : GroupManager :=
  { pomodoro := if isHost then pomodoro else pomodoro.setGroupMode true,
    optionsIsHost := isHost,
    participantId := participantId,
    sessionCode := sessionCode,
    participants := [],
    connectionState := .disconnected,
    stateSyncTimerSet := false,
    isHostFlag := isHost }

/-- `connect()`: construct the client and connect (its `connect()` reports
`connecting` through `onConnectionChange`); then, when `options.isHost`,
`startStateBroadcast()` installs the state-sync interval. -/
def GroupManager.connect (m : GroupManager) : GroupManager :=
  if m.optionsIsHost then
    { m with connectionState := .connecting, stateSyncTimerSet := true }
  else { m with connectionState := .connecting }

/-- `handleMessage(message)`: a `state-sync` from another sender is applied
wholesale to the pomodoro when not host; a `control` when not host is a
UI-refresh hint only (`handleControlAction` fires `onStateChange` and
touches nothing else).  The returned flag records whether `onStateChange`
fired. -/
def GroupManager.handleMessage (m : GroupManager) :
    GroupMessage → GroupManager × Bool
  | .stateSync senderId _ st =>
    if !m.isHostFlag && senderId != m.participantId then
      ({ m with pomodoro := m.pomodoro.setState st }, true)
    else (m, false)
  | .control _ _ _ => if !m.isHostFlag then (m, true) else (m, false)
  | _ => (m, false)

/-- `handleParticipantsUpdate(participants)`: store the roster; when the
entry whose id is ours differs in `isHost` from the tracked role, adopt it —
and if that made us host, disable group mode and start broadcasting — then
invoke `onHostChange` with the new role (the second component records that
invocation and its argument). -/
def GroupManager.handleParticipantsUpdate (m : GroupManager)
    (participants : List Participant) : GroupManager × Option Bool :=
  let m1 := { m with participants := participants }
  match participants.find? (fun p => p.id == m1.participantId) with
  | some me =>
    if me.isHost != m1.isHostFlag then
      let wasHost := m1.isHostFlag
      let m2 := { m1 with isHostFlag := me.isHost }
      let m3 :=
        if m2.isHostFlag && !wasHost then
          { m2 with pomodoro := m2.pomodoro.setGroupMode false,
                    stateSyncTimerSet := true }
        else m2
      (m3, some m3.isHostFlag)
    else (m1, none)
  | none => (m1, none)

/-- One firing of the `startStateBroadcast` interval callback (it exists
only while the interval is installed): if `client?.isConnected()`, send a
`state-sync` carrying `pomodoro.getState()`; the callback checks nothing
else — in particular not the current role. -/
def GroupManager.broadcastTick (m : GroupManager) (now : Nat) :
    Option GroupMessage :=
  if m.stateSyncTimerSet then
    if m.connectionState = .connected then
      some (.stateSync m.participantId now m.pomodoro.state)
    else none
  else none

/-- The events that can reach a connected manager: a message delivered by
the client (for `participant-update` the client invokes the roster callback
as well), a connection-state callback, a firing of the pomodoro's 1-second
interval (which exists only while `timer ≠ null`), and a firing of the
broadcast interval (which never mutates the manager). -/
inductive ManagerEvent
  | recv (msg : GroupMessage)
  | connChange (s : GroupConnectionState)
  | pomodoroTick
  | broadcastTick (now : Nat)
deriving DecidableEq, Repr

/-- The manager-state transition for one event. -/
def GroupManager.step (m : GroupManager) : ManagerEvent → GroupManager
  | .recv msg =>
    match msg with
    | .participantUpdate ss ts ps =>
      (((m.handleMessage (.participantUpdate ss ts ps)).1.handleParticipantsUpdate
        ps).1)
    | _ => (m.handleMessage msg).1
  | .connChange s => { m with connectionState := s }
  | .pomodoroTick =>
    if m.pomodoro.timerActive then { m with pomodoro := m.pomodoro.tick } else m
  | .broadcastTick _ => m

/-- An event that does not report this client promoted to host: any event
except a roster whose entry for `pid` carries `isHost = true`. -/
def NoPromotion (pid : String) : ManagerEvent → Prop
  | .recv (.participantUpdate _ _ ps) =>
    ∀ me, ps.find? (fun p => p.id == pid) = some me → me.isHost = false
  | _ => True

/-- The participant-mode invariant: role still participant, group mode on,
no tick interval installed. -/
def ParticipantInv (m : GroupManager) : Prop :=
  m.isHostFlag = false ∧ m.pomodoro.jamMode = true ∧
    m.pomodoro.timerActive = false

theorem handleParticipantsUpdate_pomodoro_state (m : GroupManager)
    (ps : List Participant) :
    (m.handleParticipantsUpdate ps).1.pomodoro.state = m.pomodoro.state := by
  cases hfind : ps.find? (fun p => p.id == m.participantId) with
  | none => simp [GroupManager.handleParticipantsUpdate, hfind]
  | some me =>
    by_cases hne : me.isHost = m.isHostFlag
    · simp [GroupManager.handleParticipantsUpdate, hfind, hne]
    · by_cases hpro : me.isHost = true ∧ m.isHostFlag = false <;>
        simp [GroupManager.handleParticipantsUpdate, hfind, hne, hpro,
          Pomodoro.setGroupMode, Pomodoro.setJamMode]

theorem step_participantId (m : GroupManager) (e : ManagerEvent) :
    (m.step e).participantId = m.participantId := by
  cases e with
  | recv msg =>
    cases msg with
    | participantUpdate ss ts ps =>
      show ((m.handleParticipantsUpdate ps).1).participantId = m.participantId
      cases hfind : ps.find? (fun p => p.id == m.participantId) with
      | none => simp [GroupManager.handleParticipantsUpdate, hfind]
      | some me =>
        by_cases hne : me.isHost = m.isHostFlag
        · simp [GroupManager.handleParticipantsUpdate, hfind, hne]
        · by_cases hpro : me.isHost = true ∧ m.isHostFlag = false <;>
            simp [GroupManager.handleParticipantsUpdate, hfind, hne, hpro]
    | stateSync sid ts st =>
      show ((m.handleMessage (.stateSync sid ts st)).1).participantId =
        m.participantId
      by_cases hc : (!m.isHostFlag && sid != m.participantId) = true <;>
        simp [GroupManager.handleMessage, hc]
    | control sid ts a =>
      show ((m.handleMessage (.control sid ts a)).1).participantId =
        m.participantId
      by_cases hc : (!m.isHostFlag) = true <;>
        simp [GroupManager.handleMessage, hc]
    | join _ _ _ _ => rfl
    | leave _ _ => rfl
    | transferHost _ _ _ => rfl
    | error _ _ _ => rfl
  | connChange s => rfl
  | pomodoroTick =>
    show (if m.pomodoro.timerActive then { m with pomodoro := m.pomodoro.tick }
      else m).participantId = m.participantId
    by_cases hb : m.pomodoro.timerActive = true <;> simp [hb]
  | broadcastTick now => rfl

theorem participantInv_step {m : GroupManager} {e : ManagerEvent}
    (hInv : ParticipantInv m) (hnp : NoPromotion m.participantId e) :
    ParticipantInv (m.step e) := by
  obtain ⟨hhost, hjam, htimer⟩ := hInv
  cases e with
  | recv msg =>
    cases msg with
    | stateSync sid ts st =>
      show ParticipantInv (m.handleMessage (.stateSync sid ts st)).1
      by_cases hc : (!m.isHostFlag && sid != m.participantId) = true
      · rw [Bool.and_eq_true] at hc
        have hsid : sid ≠ m.participantId := by simpa using hc.2
        refine ⟨?_, ?_, ?_⟩ <;>
          simp [GroupManager.handleMessage, hsid, Pomodoro.setState, hjam,
            hhost]
      · by_cases hsid : sid = m.participantId <;>
          · refine ⟨?_, ?_, ?_⟩ <;>
              simp [GroupManager.handleMessage, hsid, Pomodoro.setState, hjam,
                hhost, htimer]
    | control sid ts a =>
      show ParticipantInv (m.handleMessage (.control sid ts a)).1
      by_cases hc : (!m.isHostFlag) = true <;>
        · refine ⟨?_, ?_, ?_⟩ <;>
            simp [GroupManager.handleMessage, hc, hjam, hhost, htimer]
    | participantUpdate ss ts ps =>
      show ParticipantInv ((m.handleParticipantsUpdate ps).1)
      cases hfind : ps.find? (fun p => p.id == m.participantId) with
      | none =>
        refine ⟨?_, ?_, ?_⟩ <;>
          simp [GroupManager.handleParticipantsUpdate, hfind, hjam, hhost,
            htimer]
      | some me =>
        have hme : me.isHost = false := hnp me hfind
        have hne : me.isHost = m.isHostFlag := by rw [hme, hhost]
        refine ⟨?_, ?_, ?_⟩ <;>
          simp [GroupManager.handleParticipantsUpdate, hfind, hne, hjam,
            hhost, htimer]
    | join _ _ _ _ => exact ⟨hhost, hjam, htimer⟩
    | leave _ _ => exact ⟨hhost, hjam, htimer⟩
    | transferHost _ _ _ => exact ⟨hhost, hjam, htimer⟩
    | error _ _ _ => exact ⟨hhost, hjam, htimer⟩
  | connChange s => exact ⟨hhost, hjam, htimer⟩
  | pomodoroTick =>
    show ParticipantInv (if m.pomodoro.timerActive then
      { m with pomodoro := m.pomodoro.tick } else m)
    rw [htimer]
    simp only [Bool.false_eq_true, if_false]
    exact ⟨hhost, hjam, htimer⟩
  | broadcastTick now => exact ⟨hhost, hjam, htimer⟩

theorem participantInv_foldl {m : GroupManager} {events : List ManagerEvent}
    (hInv : ParticipantInv m)
    (hnp : ∀ e ∈ events, NoPromotion m.participantId e) :
    ParticipantInv (events.foldl GroupManager.step m) ∧
    (events.foldl GroupManager.step m).participantId = m.participantId := by
  induction events generalizing m with
  | nil => exact ⟨hInv, rfl⟩
  | cons e rest ih =>
    have h1 := participantInv_step hInv (hnp e (List.mem_cons_self _ _))
    have hpid := step_participantId m e
    have h2 := ih (m := m.step e) h1
      (fun e' he' => hpid ▸ hnp e' (List.mem_cons_of_mem _ he'))
    rw [List.foldl_cons]
    exact ⟨h2.1, by rw [h2.2, hpid]⟩

theorem timeRemaining_change_step {m : GroupManager} {e : ManagerEvent}
    (hInv : ParticipantInv m)
    (hchg : (m.step e).pomodoro.state.timeRemaining ≠
      m.pomodoro.state.timeRemaining) :
    ∃ sid ts st, e = .recv (.stateSync sid ts st) ∧ sid ≠ m.participantId ∧
      m.step e = { m with pomodoro := m.pomodoro.setState st } := by
  obtain ⟨hhost, hjam, htimer⟩ := hInv
  cases e with
  | recv msg =>
    cases msg with
    | stateSync sid ts st =>
      by_cases hsid : sid = m.participantId
      · exfalso
        apply hchg
        show ((m.handleMessage (.stateSync sid ts st)).1).pomodoro.state.timeRemaining = _
        simp [GroupManager.handleMessage, hsid]
      · refine ⟨sid, ts, st, rfl, hsid, ?_⟩
        show (m.handleMessage (.stateSync sid ts st)).1 = _
        simp [GroupManager.handleMessage, hsid, hhost]
    | control sid ts a =>
      exfalso
      apply hchg
      show ((m.handleMessage (.control sid ts a)).1).pomodoro.state.timeRemaining = _
      by_cases hc : (!m.isHostFlag) = true <;>
        simp [GroupManager.handleMessage, hc]
    | participantUpdate ss ts ps =>
      exfalso
      apply hchg
      show ((m.handleParticipantsUpdate ps).1).pomodoro.state.timeRemaining = _
      rw [handleParticipantsUpdate_pomodoro_state]
    | join _ _ _ _ => exact absurd rfl hchg
    | leave _ _ => exact absurd rfl hchg
    | transferHost _ _ _ => exact absurd rfl hchg
    | error _ _ _ => exact absurd rfl hchg
  | connChange s => exact absurd rfl hchg
  | pomodoroTick =>
    exfalso
    apply hchg
    show (if m.pomodoro.timerActive then { m with pomodoro := m.pomodoro.tick }
      else m).pomodoro.state.timeRemaining = _
    rw [htimer]
    simp
  | broadcastTick now => exact absurd rfl hchg

/-- Supporting context: for a client constructed in participant mode
(host-intent false) with a STOPPED timer interval, and whose received
rosters never report it promoted, the pomodoro's tick interval stays
uninstalled for the whole run — a tick of its own timer is a no-op — and
every step that does change the displayed `timeRemaining` is the receipt of
a `state-sync` whose sender is not this client, applied wholesale via
`setState`.  The stopped-timer hypothesis is essential: a timer already
running at construction keeps decrementing (see the evaluation theorem
below). -/
theorem participant_suppression_stopped_timer (pom : Pomodoro) (pid code : String)
    (events : List ManagerEvent) (hT : pom.timerActive = false)
    (hnp : ∀ e ∈ events, NoPromotion pid e) :
    (∀ pre post : List ManagerEvent, events = pre ++ post →
       (pre.foldl GroupManager.step
           (GroupManager.mk0 pom false code pid)).pomodoro.timerActive =
         false ∧
       (pre.foldl GroupManager.step (GroupManager.mk0 pom false code pid)).step
           ManagerEvent.pomodoroTick =
         pre.foldl GroupManager.step (GroupManager.mk0 pom false code pid)) ∧
    (∀ pre : List ManagerEvent, ∀ e : ManagerEvent,
       ∀ post : List ManagerEvent, events = pre ++ e :: post →
       ((pre.foldl GroupManager.step
           (GroupManager.mk0 pom false code pid)).step
           e).pomodoro.state.timeRemaining ≠
         (pre.foldl GroupManager.step
           (GroupManager.mk0 pom false code pid)).pomodoro.state.timeRemaining →
       ∃ sid ts st, e = .recv (.stateSync sid ts st) ∧ sid ≠ pid ∧
         (pre.foldl GroupManager.step
             (GroupManager.mk0 pom false code pid)).step e =
           { pre.foldl GroupManager.step (GroupManager.mk0 pom false code pid)
               with
             pomodoro := (pre.foldl GroupManager.step
               (GroupManager.mk0 pom false code pid)).pomodoro.setState st }) := by
  have hInv0 : ParticipantInv (GroupManager.mk0 pom false code pid) := by
    refine ⟨rfl, ?_, ?_⟩ <;>
      simp [GroupManager.mk0, Pomodoro.setGroupMode, Pomodoro.setJamMode, hT]
  constructor
  · intro pre post hpre
    have hnp' : ∀ e ∈ pre,
        NoPromotion (GroupManager.mk0 pom false code pid).participantId e :=
      fun e he => hnp e (hpre ▸ List.mem_append.mpr (Or.inl he))
    have h := participantInv_foldl hInv0 hnp'
    refine ⟨h.1.2.2, ?_⟩
    show (if (pre.foldl GroupManager.step
        (GroupManager.mk0 pom false code pid)).pomodoro.timerActive then _
      else _) = _
    rw [h.1.2.2]
    simp
  · intro pre e post hpre hchg
    have hnp' : ∀ e' ∈ pre,
        NoPromotion (GroupManager.mk0 pom false code pid).participantId e' :=
      fun e' he' => hnp e' (hpre ▸ List.mem_append.mpr (Or.inl he'))
    have h := participantInv_foldl hInv0 hnp'
    obtain ⟨sid, ts, st, rfl, hsid, heq⟩ := timeRemaining_change_step h.1 hchg
    refine ⟨sid, ts, st, rfl, ?_, heq⟩
    rwa [h.2] at hsid

/-- C9: on a roster update, `onHostChange` is invoked exactly when the
roster's entry for this client's id exists and its `isHost` differs from the
tracked role; it is then invoked with the adopted role, which becomes the
tracked role; a roster without such an entry, or agreeing with the tracked
role, leaves the tracked role unchanged and does not invoke the callback. -/
theorem c9_roster_host_change (m : GroupManager) (ps : List Participant) :
    ((m.handleParticipantsUpdate ps).2 ≠ none ↔
       ∃ me, ps.find? (fun p => p.id == m.participantId) = some me ∧
         me.isHost ≠ m.isHostFlag) ∧
    (∀ me, ps.find? (fun p => p.id == m.participantId) = some me →
       me.isHost ≠ m.isHostFlag →
       (m.handleParticipantsUpdate ps).1.isHostFlag = me.isHost ∧
       (m.handleParticipantsUpdate ps).2 = some me.isHost) ∧
    ((m.handleParticipantsUpdate ps).2 = none →
       (m.handleParticipantsUpdate ps).1.isHostFlag = m.isHostFlag) := by
  cases hfind : ps.find? (fun p => p.id == m.participantId) with
  | none =>
    refine ⟨?_, ?_, ?_⟩
    · simp [GroupManager.handleParticipantsUpdate, hfind]
    · intro me hme
      exact Option.noConfusion hme
    · intro hnone
      simp [GroupManager.handleParticipantsUpdate, hfind]
  | some me =>
    by_cases hne : me.isHost = m.isHostFlag
    · refine ⟨?_, ?_, ?_⟩
      · simp [GroupManager.handleParticipantsUpdate, hfind, hne]
      · intro me' hme' hne'
        obtain rfl : me = me' := by injection hme'
        exact absurd hne hne'
      · intro hnone
        simp [GroupManager.handleParticipantsUpdate, hfind, hne]
    · have hcall : (m.handleParticipantsUpdate ps).2 = some me.isHost := by
        by_cases hpro : me.isHost = true ∧ m.isHostFlag = false <;>
          simp [GroupManager.handleParticipantsUpdate, hfind, hne, hpro]
      have hflag : (m.handleParticipantsUpdate ps).1.isHostFlag = me.isHost := by
        by_cases hpro : me.isHost = true ∧ m.isHostFlag = false <;>
          simp [GroupManager.handleParticipantsUpdate, hfind, hne, hpro]
      refine ⟨?_, ?_, ?_⟩
      · rw [hcall]
        simp only [ne_eq, reduceCtorEq, not_false_eq_true, true_iff]
        exact ⟨me, rfl, hne⟩
      · intro me' hme' hne'
        obtain rfl : me = me' := by injection hme'
        exact ⟨hflag, hcall⟩
      · intro hnone
        rw [hcall] at hnone
        exact Option.noConfusion hnone

/-- C6 counterexample: a hosting manager (broadcast interval installed by
`connect()`, connection reported `connected`) receives a roster that flips
its role to participant.  After the transition the tracked role is indeed
`false` and `onHostChange(false)` fired — but the broadcast interval is
still installed, group mode on the timer is still off, and the very next
firing of the interval emits a `state-sync` message: the claim that no
further state-sync is emitted after the role transition is false. -/
theorem c6_demotion_counterexample :
    ((((GroupManager.mk0 (Pomodoro.init DEFAULT_CONFIG) true "BCD234"
          "a").connect.step (.connChange .connected)).handleParticipantsUpdate
        [⟨"a", "Alice", false, 0⟩, ⟨"b", "Bob", true, 1⟩]).1.isHostFlag =
      false) ∧
    ((((GroupManager.mk0 (Pomodoro.init DEFAULT_CONFIG) true "BCD234"
          "a").connect.step (.connChange .connected)).handleParticipantsUpdate
        [⟨"a", "Alice", false, 0⟩, ⟨"b", "Bob", true, 1⟩]).2 = some false) ∧
    ((((GroupManager.mk0 (Pomodoro.init DEFAULT_CONFIG) true "BCD234"
          "a").connect.step (.connChange .connected)).handleParticipantsUpdate
        [⟨"a", "Alice", false, 0⟩, ⟨"b", "Bob", true, 1⟩]).1.stateSyncTimerSet =
      true) ∧
    ((((GroupManager.mk0 (Pomodoro.init DEFAULT_CONFIG) true "BCD234"
          "a").connect.step (.connChange .connected)).handleParticipantsUpdate
        [⟨"a", "Alice", false, 0⟩, ⟨"b", "Bob", true, 1⟩]).1.pomodoro.jamMode =
      false) ∧
    ((((GroupManager.mk0 (Pomodoro.init DEFAULT_CONFIG) true "BCD234"
          "a").connect.step (.connChange .connected)).handleParticipantsUpdate
        [⟨"a", "Alice", false, 0⟩, ⟨"b", "Bob", true, 1⟩]).1.broadcastTick 9 ≠
      none) := by
  decide

/-- C6 (amended): when a roster update flips the tracked role from host to
participant, the manager adopts the new role and invokes
`onHostChange(false)`, but it neither re-enables group mode on the timer nor
stops the broadcast interval, and the interval callback checks only
connectivity — so, while the interval is installed and the connection is
`connected`, the periodic broadcast continues to emit `state-sync` messages
after the demotion (the relay drops them, as the sender is no longer the
host). -/
theorem c6_demotion_keeps_broadcasting (m : GroupManager)
    (ps : List Participant) (me : Participant)
    (hfind : ps.find? (fun p => p.id == m.participantId) = some me)
    (hwas : m.isHostFlag = true) (hnow : me.isHost = false) :
    (m.handleParticipantsUpdate ps).1.isHostFlag = false ∧
    (m.handleParticipantsUpdate ps).2 = some false ∧
    (m.handleParticipantsUpdate ps).1.stateSyncTimerSet =
      m.stateSyncTimerSet ∧
    (m.handleParticipantsUpdate ps).1.pomodoro = m.pomodoro ∧
    (∀ now : Nat, m.stateSyncTimerSet = true →
       m.connectionState = .connected →
       (m.handleParticipantsUpdate ps).1.broadcastTick now =
         some (.stateSync m.participantId now m.pomodoro.state)) := by
  have hne : ¬ me.isHost = m.isHostFlag := by
    rw [hwas, hnow]
    simp
  have hpro : ¬ (me.isHost = true ∧ m.isHostFlag = false) := by
    rw [hwas, hnow]
    simp
  refine ⟨?_, ?_, ?_, ?_, ?_⟩
  · simp [GroupManager.handleParticipantsUpdate, hfind, hne, hpro, hnow, hwas]
  · simp [GroupManager.handleParticipantsUpdate, hfind, hne, hpro, hnow, hwas]
  · simp [GroupManager.handleParticipantsUpdate, hfind, hne, hpro, hwas, hnow]
  · simp [GroupManager.handleParticipantsUpdate, hfind, hne, hpro, hwas, hnow]
  · intro now htimer hconn
    simp [GroupManager.handleParticipantsUpdate, GroupManager.broadcastTick,
      hfind, hne, hpro, htimer, hconn, hwas, hnow]

theorem c6_demotion_keeps_broadcasting_witness :
    (([⟨"a", "Alice", false, 0⟩, ⟨"b", "Bob", true, 1⟩] :
        List Participant).find?
      (fun p => p.id ==
        ((GroupManager.mk0 (Pomodoro.init DEFAULT_CONFIG) true "BCD234"
          "a").connect.step (.connChange .connected)).participantId) =
      some ⟨"a", "Alice", false, 0⟩) ∧
    ((GroupManager.mk0 (Pomodoro.init DEFAULT_CONFIG) true "BCD234"
        "a").connect.step (.connChange .connected)).isHostFlag = true ∧
    (⟨"a", "Alice", false, 0⟩ : Participant).isHost = false ∧
    ((((GroupManager.mk0 (Pomodoro.init DEFAULT_CONFIG) true "BCD234"
          "a").connect.step (.connChange .connected)).handleParticipantsUpdate
        [⟨"a", "Alice", false, 0⟩, ⟨"b", "Bob", true, 1⟩]).1.broadcastTick 9 =
      some (.stateSync "a" 9 (Pomodoro.init DEFAULT_CONFIG).state)) :=
  ⟨by decide, by decide, rfl, by
    have h := (c6_demotion_keeps_broadcasting
      ((GroupManager.mk0 (Pomodoro.init DEFAULT_CONFIG) true "BCD234"
        "a").connect.step (.connChange .connected))
      [⟨"a", "Alice", false, 0⟩, ⟨"b", "Bob", true, 1⟩]
      ⟨"a", "Alice", false, 0⟩ (by decide) (by decide) rfl).2.2.2.2 9
      (by decide) (by decide)
    simpa using h⟩

/-- C3: the code evaluated at the failing input — a pomodoro whose 1-second
interval is already running when a participant-mode manager is constructed.
`setGroupMode(true)` only sets the group-mode flag (the setter's own source
comment says jam mode "prevents local timer ticks"), so the pre-existing
interval's next firing still decrements `timeRemaining` (1500 to 1499)
although the client is in participant mode and no `state-sync` has been
received; the interval is only cleared when the first `state-sync` from
another sender reaches `setState`. -/
theorem c3_running_at_join_tick :
    (GroupManager.mk0 (Pomodoro.init DEFAULT_CONFIG).start false "BCD234"
        "me").pomodoro.jamMode = true ∧
    (GroupManager.mk0 (Pomodoro.init DEFAULT_CONFIG).start false "BCD234"
        "me").isHostFlag = false ∧
    (GroupManager.mk0 (Pomodoro.init DEFAULT_CONFIG).start false "BCD234"
        "me").pomodoro.timerActive = true ∧
    (GroupManager.mk0 (Pomodoro.init DEFAULT_CONFIG).start false "BCD234"
        "me").pomodoro.state.timeRemaining = (1500 : Int) ∧
    ((GroupManager.mk0 (Pomodoro.init DEFAULT_CONFIG).start false "BCD234"
        "me").step ManagerEvent.pomodoroTick).pomodoro.state.timeRemaining =
      (1499 : Int) ∧
    ((GroupManager.mk0 (Pomodoro.init DEFAULT_CONFIG).start false "BCD234"
        "me").step (ManagerEvent.recv (GroupMessage.stateSync "h" 0
          ⟨.work, 1480, true, 0⟩))).pomodoro.timerActive = false := by
  decide
